import Mathlib

/-!
Verification of the moonshine-whisper transcription service core.

Shallow embedding of the Go source (main.go, transcribe.go): the pure
algorithms (WAV parsing, VAD chunk grouping, the hallucination score
guard, the request pipeline of transcribeFile) are translated into Lean
definitions.  External engines (ffmpeg, the sherpa recognizers, the
Silero VAD) are opaque in the source and appear here as function-valued
fields of an environment record.  float32/float64 values are modelled by
the rationals; every arithmetic step of the modelled code (division of a
16-bit integer sample by the power of two 32768, millisecond counts
n / 16, sample counts) is exact in binary floating point at the sizes
involved, so the rational model computes the same numbers the Go code
does.  Machine integers are modelled by Nat/Int with explicit ranges.
Concurrency of the recognizer mutexes is modelled by an explicit
interleaving transition system over the lock/decode/unlock structure of
recognizeChunk.
-/

/-! ## Segmentation engine: chunk grouping (main.go, applyVADChunked) -/

/-- Maximum chunk size in samples: 25 s at 16 kHz (Go constant
`maxChunkSamples = 25 * 16000`). -/
def maxChunkSamples : Nat := 25 * 16000

/-- The drain loop of `applyVADChunked`, recursion on the list of
segments drained from the VAD detector.  `current` is the chunk being
accumulated.  Go body, per segment:
`if len(current)+len(seg.Samples) > maxChunkSamples && len(current) > 0
\x7b chunks = append(chunks, current); current = nil \x7d;
current = append(current, seg.Samples...)`, and after the loop
`if len(current) > 0 \x7b chunks = append(chunks, current) \x7d`. -/
def chunkSegmentsAux : List (List ℚ) → List ℚ → List (List ℚ)
  | [], current => if 0 < current.length then [current] else []
  | seg :: rest, current =>
    if maxChunkSamples < current.length + seg.length ∧ 0 < current.length then
      current :: chunkSegmentsAux rest seg
    else
      chunkSegmentsAux rest (current ++ seg)

/-- Chunk grouping over a drained segment sequence, starting from an
empty current chunk (the `var current []float32` of the Go code). -/
def chunkSegments (segs : List (List ℚ)) : List (List ℚ) :=
  chunkSegmentsAux segs []

/-- The same drain loop, but remembering which whole segments make up
each chunk instead of concatenating their samples: the group accumulator
`g` lists the segments of the chunk under construction, so
`g.flatten` is the Go `current` and every branch tests exactly the Go
condition.  Used to state that chunks arise from a partition of the
drained segment list into runs of consecutive whole segments. -/
def chunkGroupsAux : List (List ℚ) → List (List ℚ) → List (List (List ℚ))
  | [], g => if 0 < g.flatten.length then [g] else []
  | seg :: rest, g =>
    if maxChunkSamples < g.flatten.length + seg.length ∧ 0 < g.flatten.length then
      g :: chunkGroupsAux rest [seg]
    else
      chunkGroupsAux rest (g ++ [seg])

/-! ## PCM decoder (loadWav) -/

/-- Little-endian 16-bit unsigned value of two bytes
(Go `binary.LittleEndian.Uint16`). -/
def u16le (b0 b1 : Nat) : Nat := b0 + 256 * b1

/-- Little-endian 32-bit unsigned value of four bytes
(Go `binary.LittleEndian.Uint32`). -/
def u32le (b0 b1 b2 b3 : Nat) : Nat :=
  b0 + 256 * b1 + 65536 * b2 + 16777216 * b3

/-- Two-byte little-endian value reinterpreted as a signed 16-bit
integer in two-complement form (Go `int16(binary.LittleEndian.Uint16 ...)`). -/
def int16OfBytes (b0 b1 : Nat) : Int :=
  if u16le b0 b1 < 32768 then (u16le b0 b1 : Int) else (u16le b0 b1 : Int) - 65536

/-- Mono 16-bit payload loop of loadWav:
`for i := 0; i+1 < len(data); i += 2` appending `float32(s)/32768.0`.
A trailing odd byte is not consumed by the loop. -/
def decodeMono : List Nat → List ℚ
  | b0 :: b1 :: rest => ((int16OfBytes b0 b1 : ℚ) / 32768) :: decodeMono rest
  | _ => []

/-- Stereo 16-bit payload loop of loadWav:
`for i := 0; i+3 < len(data); i += 4` appending
`(float32(l)+float32(r))/2.0/32768.0`.  A trailing partial frame is not
consumed. -/
def decodeStereo : List Nat → List ℚ
  | b0 :: b1 :: b2 :: b3 :: rest =>
    (((int16OfBytes b0 b1 : ℚ) + (int16OfBytes b2 b3 : ℚ)) / 2 / 32768)
      :: decodeStereo rest
  | _ => []

/-- Failure cases of loadWav.  `malformedHeader` is the wrapped
`io.ReadFull` failure (`read header: ...`), raised exactly when the file
holds fewer than 44 bytes; `unsupportedFormat` is the
`unsupported WAV: %dbit %dch` error of the default switch branch. -/
inductive WavError
  | malformedHeader
  | unsupportedFormat (bits ch : Nat)
deriving DecidableEq

/-- Rendering of a WavError as the Go error string. -/
def wavErrorMessage : WavError → String
  | .malformedHeader => "read header"
  | .unsupportedFormat bits ch =>
    "unsupported WAV: " ++ Nat.repr bits ++ "bit " ++ Nat.repr ch ++ "ch"

/-- loadWav over the byte content of the file.  Reads a 44-byte header
(failing when the file is shorter), extracts sample rate (bytes 24..27),
channel count (22..23) and bit depth (34..35), then decodes the
remaining payload in the 16-bit mono or 16-bit stereo branch, failing on
any other combination.  `io.ReadAll` on an in-memory byte list cannot
fail, so the payload read error branch of the Go code has no
counterpart here. -/
def loadWav (file : List Nat) : Except WavError (List ℚ × Nat) :=
  if file.length < 44 then .error .malformedHeader
  else
    let sampleRate := u32le (file.getD 24 0) (file.getD 25 0) (file.getD 26 0) (file.getD 27 0)
    let numChannels := u16le (file.getD 22 0) (file.getD 23 0)
    let bitsPerSample := u16le (file.getD 34 0) (file.getD 35 0)
    let data := file.drop 44
    if bitsPerSample = 16 ∧ numChannels = 1 then .ok (decodeMono data, sampleRate)
    else if bitsPerSample = 16 ∧ numChannels = 2 then .ok (decodeStereo data, sampleRate)
    else .error (.unsupportedFormat bitsPerSample numChannels)

/-- Modelled from the spec: the repository has no PCM encoder, so the
re-encoding direction of the round-trip property is taken from the
specification words, re-encode each sample "at the same 16-bit mono
layout (multiplying by 32768)".  The product is turned back into a
signed 16-bit value and stored as two little-endian bytes. -/
def encodeSample16 (q : ℚ) : List Nat :=
  let s : ℤ := ⌊q * 32768⌋
  let u : Nat := (s % 65536).toNat
  [u % 256, u / 256]

/-- Modelled from the spec: re-encode a mono sample sequence at the
16-bit mono layout, concatenating the two-byte frames. -/
def encodeMono16 (qs : List ℚ) : List Nat :=
  (qs.map encodeSample16).flatten

/-! ## Hallucination filter (compressionRatio and its threshold) -/

/-- Go compressionRatio.  `len(text)` is the UTF-8 byte length of the Go
string.  The zlib-compressed length (`compress/zlib`, an external
library routine) is the opaque parameter `compLen`.  Texts of fewer
than 10 bytes score 0 before any compression happens. -/
def compressionRatio (compLen : String → Nat) (text : String) : ℚ :=
  if text.utf8ByteSize < 10 then 0
  else (text.utf8ByteSize : ℚ) / (compLen text : ℚ)

/-- The suppression guard `ratio > 2.4` of transcribeFile.  The float64
literal 2.4 is modelled by the rational 12/5; no claim in this
development depends on the below-1e-15 gap between the two. -/
def isHallucination (compLen : String → Nat) (text : String) : Bool :=
  decide ((12 : ℚ) / 5 < compressionRatio compLen text)

/-! ## Transcription pipeline (transcribeFile, main.go lines 991-1133) -/

/-- The two configuration fields transcribeFile reads.  loadConfig
defaults them to 10.0 and 300.0 seconds when the environment variables
VAD_MIN_DURATION_S and MAX_AUDIO_DURATION_S are unset. -/
structure Config where
  vadMinDurationS : ℚ
  maxAudioDurationS : ℚ

/-- The loadConfig values with no environment overrides. -/
def defaultConfig : Config := ⟨10, 300⟩

/-- Per-request view of the process environment: configuration, engine
load state, and the opaque external calls (ffmpeg conversion output,
VAD segment drain, the two recognizers, the zlib length). -/
structure Env where
  cfg : Config
  /-- recognizerRU ≠ nil: the Russian model loaded at startup. -/
  ruLoaded : Bool
  /-- vadDetector ≠ nil: the Silero VAD model loaded at startup. -/
  vadLoaded : Bool
  /-- Byte content of the converted wav file written by the ffmpeg
  subprocess; `none` models a nonzero exit of the subprocess. -/
  ffmpegOut : Option (List Nat)
  /-- Segments drained from the VAD detector after feeding the given
  samples in 512-sample windows and flushing (the opaque engine part of
  applyVADChunked). -/
  vadSegs : List ℚ → List (List ℚ)
  /-- Text returned by the English recognizer for a waveform. -/
  decodeEN : List ℚ → String
  /-- Text returned by the Russian recognizer for a waveform. -/
  decodeRU : List ℚ → String
  /-- zlib-compressed byte length of a text. -/
  compLen : String → Nat

/-- A transcription request as transcribeFile receives it. -/
structure Request where
  /-- `strings.ToLower(filepath.Ext(audioPath))` of the input path. -/
  ext : String
  /-- Byte content of the input file, used when the extension already
  is `.wav` and no conversion runs. -/
  fileBytes : List Nat
  /-- Language code; `"ru"` selects the Russian engine, anything else
  the English one. -/
  lang : String
  /-- Explicit VAD override: `none` = auto, `some true` = force on,
  `some false` = force off. -/
  vadOverride : Option Bool

/-- The response record.  DurationMs is wall-clock telemetry and is not
modelled.  `speechMs = 0` renders as an absent field under
`omitempty`, and `error = ""` as an absent error. -/
structure TranscribeResponse where
  text : String
  speechMs : ℚ
  error : String
deriving DecidableEq

/-- Observable side effects of one transcribeFile call: whether the
conversion subprocess was invoked (non-wav extension), whether
`os.Remove` ran on the temporary file, whether the VAD drain ran, and
the engine decode calls in order (flag true = Russian engine, with the
submitted waveform). -/
structure Trace where
  ffmpegInvoked : Bool
  tmpRemoved : Bool
  ranVAD : Bool
  decodes : List (Bool × List ℚ)
deriving DecidableEq

/-- Result of a transcribeFile call: response, HTTP status, trace. -/
structure TFResult where
  resp : TranscribeResponse
  status : Nat
  trace : Trace

/-- The segmentation decision of transcribeFile:
`useVAD := vadDetector != nil && audioDurS >= cfg.VADMinDurationS`
overwritten by `useVAD = *vadOverride && vadDetector != nil` when the
override is set. -/
def decideVAD (vadLoaded : Bool) (vadOverride : Option Bool)
    (audioDurS vadMinDurationS : ℚ) : Bool :=
  match vadOverride with
  | none => vadLoaded && decide (vadMinDurationS ≤ audioDurS)
  | some b => b && vadLoaded

/-- applyVADChunked: feed the samples to the opaque VAD engine, drain
its segments, and group them into duration-bounded chunks. -/
def applyVADChunked (env : Env) (samples : List ℚ) : List (List ℚ) :=
  chunkSegments (env.vadSegs samples)

/-- recognizeChunk dispatch: `case "ru"` decodes on the Russian
recognizer, the default branch on the English one. -/
def recognizeChunk (env : Env) (lang : String) (chunk : List ℚ) : String :=
  if lang = "ru" then env.decodeRU chunk else env.decodeEN chunk

/-- The per-chunk loop of transcribeFile: recognize, trim, skip the
chunk when the compression ratio exceeds the threshold, append nonempty
texts.  The second component records every decode call (the decode of a
chunk happens before its ratio test). -/
def processChunks (env : Env) (lang : String) (chunks : List (List ℚ)) :
    List String × List (Bool × List ℚ) :=
  chunks.foldl (fun acc chunk =>
    let t := (recognizeChunk env lang chunk).trim
    let acc2 := (acc.1, acc.2 ++ [(lang == "ru", chunk)])
    if isHallucination env.compLen t then acc2
    else if t = "" then acc2
    else (acc2.1 ++ [t], acc2.2)) ([], [])

/-- An error exit of transcribeFile: empty text, no speech field. -/
def errResult (e : String) (status : Nat) (tr : Trace) : TFResult :=
  ⟨⟨"", 0, e⟩, status, tr⟩

/-- Tail of transcribeFile shared by the VAD and no-VAD paths:
transcribe every chunk, join the surviving parts with single spaces,
set SpeechMs only when positive. -/
def finishChunks (env : Env) (req : Request) (conv ranVAD : Bool)
    (chunks : List (List ℚ)) (speechMs : ℚ) : TFResult :=
  let pd := processChunks env req.lang chunks
  ⟨⟨String.intercalate " " pd.1, if 0 < speechMs then speechMs else 0, ""⟩,
    200, ⟨conv, conv, ranVAD, pd.2⟩⟩

/-- Byte content of the wav file handed to loadWav: the ffmpeg output
when the extension forces a conversion, the input file itself
otherwise. -/
def wavBytes (env : Env) (req : Request) : Option (List Nat) :=
  if !(req.ext == ".wav") then env.ffmpegOut else some req.fileBytes

/-- transcribeFile (the chunked revision of main.go).  Stages in source
order: convert when the extension is not `.wav` (the deferred
`os.Remove` is registered only after a successful conversion, hence
`tmpRemoved = conv` on every later exit and `false` on the conversion
failure exit); load the wav; reject a non-16000 sample rate; reject
audio longer than the configured ceiling; reject `ru` with no Russian
engine; decide segmentation; return the silence response when the VAD
yields no chunk; otherwise transcribe all chunks. -/
def transcribeFile (env : Env) (req : Request) : TFResult :=
  let conv : Bool := !(req.ext == ".wav")
  match wavBytes env req with
  | none => errResult "ffmpeg: conversion failed" 422 ⟨conv, false, false, []⟩
  | some bytes =>
    match loadWav bytes with
    | .error e =>
      errResult ("load wav: " ++ wavErrorMessage e) 400 ⟨conv, conv, false, []⟩
    | .ok (samples, sampleRate) =>
      if sampleRate ≠ 16000 then
        errResult "unsupported sample rate" 400 ⟨conv, conv, false, []⟩
      else
        let audioDurS : ℚ := (samples.length : ℚ) / 16000
        if env.cfg.maxAudioDurationS < audioDurS then
          errResult "audio too long" 400 ⟨conv, conv, false, []⟩
        else if req.lang = "ru" ∧ env.ruLoaded = false then
          errResult "RU model not loaded; set ZIPFORMER_RU_DIR" 503
            ⟨conv, conv, false, []⟩
        else
          let useVAD := decideVAD env.vadLoaded req.vadOverride audioDurS
            env.cfg.vadMinDurationS
          if useVAD then
            let chunks := applyVADChunked env samples
            if chunks = [] then
              ⟨⟨"", 0, ""⟩, 200, ⟨conv, conv, true, []⟩⟩
            else
              finishChunks env req conv true chunks
                (chunks.foldl (fun a c => a + (c.length : ℚ) / 16) 0)
          else
            finishChunks env req conv false [samples] 0

/-! ## Concurrency model of recognizeChunk (muEN / muRU) -/

/-- Position of a request thread inside recognizeChunk: before the
Lock call, holding the mutex while Decode runs, after the Unlock. -/
inductive PC
  | idle
  | decoding
  | done
deriving DecidableEq

/-- Global state of the interleaving model: each thread index carries
its language code and program counter; each of the two recognizer
mutexes carries its holder, if any. -/
structure SysState where
  threads : Nat → Option (String × PC)
  ownerEN : Option Nat
  ownerRU : Option Nat

/-- Which mutex recognizeChunk takes for a language code: `true` is
muRU (the `case "ru"` branch), `false` is muEN (the default branch). -/
def usesRU (lang : String) : Bool := lang == "ru"

/-- Holder of the selected mutex. -/
def mutexOwner (s : SysState) (m : Bool) : Option Nat :=
  if m then s.ownerRU else s.ownerEN

/-- Replace the holder of the selected mutex. -/
def setMutexOwner (s : SysState) (m : Bool) (v : Option Nat) : SysState :=
  if m then { s with ownerRU := v } else { s with ownerEN := v }

/-- Replace the state of one thread. -/
def setThread (s : SysState) (i : Nat) (v : String × PC) : SysState :=
  { s with threads := Function.update s.threads i (some v) }

/-- One interleaving step.  A thread acquires its mutex only when the
mutex is free (sync.Mutex.Lock blocks otherwise) and then runs Decode;
releasing ends the decode interval and frees the mutex.  This is the
Lock / Decode / Unlock structure of recognizeChunk. -/
inductive SysStep : SysState → SysState → Prop
  | acquire (s : SysState) (i : Nat) (lang : String)
      (hth : s.threads i = some (lang, PC.idle))
      (hfree : mutexOwner s (usesRU lang) = none) :
      SysStep s (setMutexOwner (setThread s i (lang, PC.decoding)) (usesRU lang) (some i))
  | release (s : SysState) (i : Nat) (lang : String)
      (hth : s.threads i = some (lang, PC.decoding)) :
      SysStep s (setMutexOwner (setThread s i (lang, PC.done)) (usesRU lang) none)

/-- Reflexive-transitive closure of the interleaving step. -/
def SysReach : SysState → SysState → Prop :=
  Relation.ReflTransGen SysStep

/-- Initial state for a list of concurrent requests: every thread is
before its Lock call, both mutexes are free. -/
def initState (langs : List String) : SysState :=
  ⟨fun i => (langs.get? i).map (fun l => (l, PC.idle)), none, none⟩

/-- Lock-ownership invariant: a thread inside its decode interval holds
the mutex of its language. -/
def LockInv (s : SysState) : Prop :=
  ∀ i lang, s.threads i = some (lang, PC.decoding) →
    mutexOwner s (usesRU lang) = some i

/-! ## Concrete inputs used to instantiate the theorems -/

/-- A canonical 44-byte wav header: mono (bytes 22-23), 16000 Hz
(bytes 24-27), 16-bit (bytes 34-35), empty payload. -/
def wavMono44 : List Nat :=
  List.replicate 22 0 ++ [1, 0] ++ [128, 62, 0, 0] ++ List.replicate 6 0 ++
    [16, 0] ++ List.replicate 8 0

/-- The header above followed by a single stray payload byte: a
truncated payload that is not a whole number of 2-byte frames. -/
def wavMono45 : List Nat := wavMono44 ++ [7]

/-- Environment for instantiations: permissive config, both engines and
the VAD loaded, a failing ffmpeg, a VAD that yields no segment. -/
def sampleEnv : Env :=
  ⟨⟨0, 300⟩, true, true, none, fun _ => [], fun _ => "", fun _ => "", fun _ => 1⟩

/-- A `.wav` request carrying the empty-payload file, language en,
no VAD override. -/
def sampleReqAuto : Request := ⟨".wav", wavMono44, "en", none⟩

/-- The same request with VAD forced on. -/
def sampleReqVadOn : Request := ⟨".wav", wavMono44, "en", some true⟩

/-- The same request with language ru. -/
def sampleReqRu : Request := ⟨".wav", wavMono44, "ru", none⟩

/-- Environment whose Russian engine never loaded. -/
def sampleEnvNoRU : Env :=
  ⟨⟨0, 300⟩, false, true, none, fun _ => [], fun _ => "", fun _ => "", fun _ => 1⟩

/-- A request with a non-wav extension, forcing the conversion
subprocess to run. -/
def sampleReqMp3 : Request := ⟨".mp3", [], "en", none⟩

/-- Environment whose conversion subprocess succeeds, emitting the
canonical empty-payload file. -/
def sampleEnvConvOk : Env :=
  ⟨⟨0, 300⟩, true, true, some wavMono44, fun _ => [], fun _ => "", fun _ => "", fun _ => 1⟩

/-- Environment whose VAD drain yields one single-sample segment. -/
def sampleEnvSeg : Env :=
  ⟨⟨0, 300⟩, true, true, none, fun _ => [[1]], fun _ => "", fun _ => "", fun _ => 1⟩

/-- Two concurrent requests, English and Russian, both before Lock. -/
def initEnRu : SysState := initState ["en", "ru"]

/-- The English request has acquired muEN and is decoding. -/
def midEnRu : SysState :=
  setMutexOwner (setThread initEnRu 0 ("en", PC.decoding)) (usesRU "en") (some 0)

/-- Both requests are decoding at once: the English one on muEN, the
Russian one on muRU. -/
def overlapEnRu : SysState :=
  setMutexOwner (setThread midEnRu 1 ("ru", PC.decoding)) (usesRU "ru") (some 1)

/-! ## Chunk grouping lemmas -/

/-- Every chunk emitted by the drain loop is bounded, or is the
incoming accumulator, or is one whole input segment. -/
theorem chunkSegmentsAux_mem_cases :
    ∀ (segs : List (List ℚ)) (current c : List ℚ),
      c ∈ chunkSegmentsAux segs current →
      c.length ≤ maxChunkSamples ∨ c = current ∨ c ∈ segs := by
  intro segs
  induction segs with
  | nil =>
    intro current c hc
    simp only [chunkSegmentsAux] at hc
    split at hc
    · simp only [List.mem_singleton] at hc
      exact Or.inr (Or.inl hc)
    · simp at hc
  | cons seg rest ih =>
    intro current c hc
    simp only [chunkSegmentsAux] at hc
    split at hc
    · rcases List.mem_cons.mp hc with h | h
      · exact Or.inr (Or.inl h)
      · rcases ih seg c h with h1 | h1 | h1
        · exact Or.inl h1
        · exact Or.inr (Or.inr (h1 ▸ List.mem_cons_self seg rest))
        · exact Or.inr (Or.inr (List.mem_cons_of_mem seg h1))
    · rename_i hcond
      rcases ih (current ++ seg) c hc with h1 | h1 | h1
      · exact Or.inl h1
      · rcases Decidable.not_and_iff_or_not.mp hcond with h2 | h2
        · left
          rw [h1, List.length_append]
          omega
        · right; right
          have hcur : current = [] := by
            simpa using Nat.eq_zero_of_not_pos h2
          rw [h1, hcur, List.nil_append]
          exact List.mem_cons_self seg rest
      · exact Or.inr (Or.inr (List.mem_cons_of_mem seg h1))

/-- Every chunk the drain loop emits carries at least one sample. -/
theorem chunkSegmentsAux_pos :
    ∀ (segs : List (List ℚ)) (current c : List ℚ),
      c ∈ chunkSegmentsAux segs current → 0 < c.length := by
  intro segs
  induction segs with
  | nil =>
    intro current c hc
    simp only [chunkSegmentsAux] at hc
    split at hc
    · rename_i hpos
      simp only [List.mem_singleton] at hc
      exact hc ▸ hpos
    · simp at hc
  | cons seg rest ih =>
    intro current c hc
    simp only [chunkSegmentsAux] at hc
    split at hc
    · rename_i hcond
      rcases List.mem_cons.mp hc with h | h
      · exact h ▸ hcond.2
      · exact ih seg c h
    · exact ih (current ++ seg) c hc

/-- Concatenating the emitted chunks reproduces the accumulator
followed by all drained samples, in order: no sample is lost,
duplicated or reordered, and in particular no segment is split other
than at its own boundaries. -/
theorem chunkSegmentsAux_flatten :
    ∀ (segs : List (List ℚ)) (current : List ℚ),
      (chunkSegmentsAux segs current).flatten = current ++ segs.flatten := by
  intro segs
  induction segs with
  | nil =>
    intro current
    simp only [chunkSegmentsAux]
    split
    · simp
    · rename_i h
      have : current = [] := by simpa using Nat.eq_zero_of_not_pos h
      simp [this]
  | cons seg rest ih =>
    intro current
    simp only [chunkSegmentsAux]
    split
    · simp [ih seg]
    · simp [ih (current ++ seg)]

/-- The sample-level drain loop is the flatten image of the
segment-level one: grouping whole segments and then concatenating each
group gives exactly the chunks. -/
theorem chunkGroupsAux_map_flatten :
    ∀ (segs : List (List ℚ)) (g : List (List ℚ)),
      chunkSegmentsAux segs g.flatten = (chunkGroupsAux segs g).map List.flatten := by
  intro segs
  induction segs with
  | nil =>
    intro g
    simp only [chunkSegmentsAux, chunkGroupsAux]
    by_cases h : 0 < g.flatten.length
    · rw [if_pos h, if_pos h]
      rfl
    · rw [if_neg h, if_neg h]
      rfl
  | cons seg rest ih =>
    intro g
    simp only [chunkSegmentsAux, chunkGroupsAux]
    by_cases h : maxChunkSamples < g.flatten.length + seg.length ∧ 0 < g.flatten.length
    · rw [if_pos h, if_pos h]
      have h2 := ih [seg]
      simp only [List.flatten_cons, List.flatten_nil, List.append_nil] at h2
      rw [List.map_cons, h2]
    · rw [if_neg h, if_neg h]
      have h2 := ih (g ++ [seg])
      simp only [List.flatten_append, List.flatten_cons, List.flatten_nil,
        List.append_nil] at h2
      exact h2

/-- The groups partition the drained segment list: concatenating the
groups gives back every segment in order, except for a trailing run of
zero-sample segments that the final length test drops. -/
theorem chunkGroupsAux_covers :
    ∀ (segs g : List (List ℚ)),
      ∃ rest : List (List ℚ),
        g ++ segs = (chunkGroupsAux segs g).flatten ++ rest ∧
        ∀ s ∈ rest, s = [] := by
  intro segs
  induction segs with
  | nil =>
    intro g
    simp only [chunkGroupsAux]
    by_cases h : 0 < g.flatten.length
    · refine ⟨[], ?_, by simp⟩
      rw [if_pos h]
      simp
    · refine ⟨g, ?_, ?_⟩
      · rw [if_neg h]
        simp
      · intro s hs
        have hfl : g.flatten = [] := by
          cases hempty : g.flatten with
          | nil => rfl
          | cons a t => rw [hempty] at h; simp at h
        exact List.flatten_eq_nil_iff.mp hfl s hs
  | cons seg rest0 ih =>
    intro g
    simp only [chunkGroupsAux]
    by_cases h : maxChunkSamples < g.flatten.length + seg.length ∧ 0 < g.flatten.length
    · rw [if_pos h]
      obtain ⟨r, hr, hre⟩ := ih [seg]
      refine ⟨r, ?_, hre⟩
      rw [List.flatten_cons, List.append_assoc, ← hr]
      simp
    · rw [if_neg h]
      obtain ⟨r, hr, hre⟩ := ih (g ++ [seg])
      refine ⟨r, ?_, hre⟩
      rw [← hr]
      simp

/-! ## C1 and C10: chunk bound, no segment split, non-emptiness -/

/-- C1: for every sequence of speech segments drained from the VAD
engine, every chunk produced by applyVADChunked holds at most
maxChunkSamples = 400000 samples (25 s at 16 kHz), unless that chunk is
exactly one drained segment that alone exceeds the maximum; the chunks
concatenate to the concatenation of the drained segments in order; and
a segment is never split across two chunks: the chunk list is the image
under concatenation of a partition of the drained segment list into
runs of consecutive whole segments (up to a trailing run of zero-sample
segments, which contributes to no chunk). -/
theorem c1_chunk_duration_bound (env : Env) (samples : List ℚ) (c : List ℚ)
    (hc : c ∈ applyVADChunked env samples) :
    (c.length ≤ maxChunkSamples ∨
      (maxChunkSamples < c.length ∧ c ∈ env.vadSegs samples)) ∧
    (applyVADChunked env samples).flatten = (env.vadSegs samples).flatten ∧
    (∃ (gss : List (List (List ℚ))) (rest : List (List ℚ)),
      applyVADChunked env samples = gss.map List.flatten ∧
      env.vadSegs samples = gss.flatten ++ rest ∧
      ∀ s ∈ rest, s = []) := by
  have hc2 : c ∈ chunkSegmentsAux (env.vadSegs samples) [] := hc
  refine ⟨?_, ?_, ?_⟩
  · rcases chunkSegmentsAux_mem_cases (env.vadSegs samples) [] c hc2 with h | h | h
    · exact Or.inl h
    · exact Or.inl (by simp [h, maxChunkSamples])
    · by_cases hlen : c.length ≤ maxChunkSamples
      · exact Or.inl hlen
      · exact Or.inr ⟨Nat.lt_of_not_le hlen, h⟩
  · simpa using chunkSegmentsAux_flatten (env.vadSegs samples) []
  · refine ⟨chunkGroupsAux (env.vadSegs samples) [], ?_⟩
    obtain ⟨r, hr, hre⟩ := chunkGroupsAux_covers (env.vadSegs samples) []
    refine ⟨r, ?_, ?_, hre⟩
    · exact chunkGroupsAux_map_flatten (env.vadSegs samples) []
    · simpa using hr

/-- Instantiation of c1_chunk_duration_bound on a concrete drained
segment list. -/
theorem c1_witness :
    (([1] : List ℚ) ∈ applyVADChunked sampleEnvSeg []) ∧
    ((([1] : List ℚ).length ≤ maxChunkSamples ∨
        (maxChunkSamples < ([1] : List ℚ).length ∧
          ([1] : List ℚ) ∈ sampleEnvSeg.vadSegs [])) ∧
      (applyVADChunked sampleEnvSeg []).flatten =
        (sampleEnvSeg.vadSegs []).flatten ∧
      (∃ (gss : List (List (List ℚ))) (rest : List (List ℚ)),
        applyVADChunked sampleEnvSeg [] = gss.map List.flatten ∧
        sampleEnvSeg.vadSegs [] = gss.flatten ++ rest ∧
        ∀ s ∈ rest, s = [])) := by
  have hm : ([1] : List ℚ) ∈ applyVADChunked sampleEnvSeg [] := by
    simp [applyVADChunked, chunkSegments, chunkSegmentsAux, sampleEnvSeg,
      maxChunkSamples]
  exact ⟨hm, c1_chunk_duration_bound sampleEnvSeg [] [1] hm⟩

/-- C10: applyVADChunked never emits an empty chunk. -/
theorem c10_chunks_nonempty (env : Env) (samples : List ℚ) (c : List ℚ)
    (hc : c ∈ applyVADChunked env samples) : 0 < c.length :=
  chunkSegmentsAux_pos (env.vadSegs samples) [] c hc

/-- Instantiation of c10_chunks_nonempty on a concrete drained segment
list. -/
theorem c10_witness :
    (([1] : List ℚ) ∈ applyVADChunked sampleEnvSeg []) ∧
    0 < ([1] : List ℚ).length := by
  have hm : ([1] : List ℚ) ∈ applyVADChunked sampleEnvSeg [] := by
    simp [applyVADChunked, chunkSegments, chunkSegmentsAux, sampleEnvSeg,
      maxChunkSamples]
  exact ⟨hm, c10_chunks_nonempty sampleEnvSeg [] [1] hm⟩

/-! ## C3: short texts and the suppression guard -/

/-- Counterexample to C3 as stated: the guard `len(text) < 10` counts
UTF-8 bytes, not characters.  The 6-character text "привет" spans 12
bytes, so the filter does not assign it score 0: it computes the full
compression ratio 12 / compressedLength (shown here at compressed
length 20, and nonzero for every positive compressed length the zlib
call can produce), refuting "assigns repetition score 0 ... regardless
of its content" for texts shorter than 10 characters. -/
theorem c3_counterexample :
    ("привет" : String).length < 10 ∧
    ¬ ("привет" : String).utf8ByteSize < 10 ∧
    compressionRatio (fun _ => 20) "привет" = 12 / 20 ∧
    compressionRatio (fun _ => 20) "привет" ≠ 0 := by
  refine ⟨by decide, by decide, ?_, ?_⟩
  · have hb : ¬ ("привет" : String).utf8ByteSize < 10 := by decide
    have hs : (("привет" : String).utf8ByteSize : ℚ) = 12 := by
      norm_num [show ("привет" : String).utf8ByteSize = 12 from by decide]
    simp only [ compressionRatio, if_neg hb, hs]
    norm_num
  · have hb : ¬ ("привет" : String).utf8ByteSize < 10 := by decide
    have hs : (("привет" : String).utf8ByteSize : ℚ) = 12 := by
      norm_num [show ("привет" : String).utf8ByteSize = 12 from by decide]
    simp only [ compressionRatio, if_neg hb, hs]
    norm_num

/-- C3 amended: the length guard is over the UTF-8 byte length that Go
len measures, not the character count.  A text of fewer than 10 bytes
scores 0 and never trips the suppression guard, whatever the compressor
reports. -/
theorem c3_short_text_kept (compLen : String → Nat) (text : String)
    (h : text.utf8ByteSize < 10) :
    compressionRatio compLen text = 0 ∧
      isHallucination compLen text = false := by
  have hr : compressionRatio compLen text = 0 := by
    simp [ compressionRatio, if_pos h]
  refine ⟨hr, ?_⟩
  simp only [isHallucination, hr, decide_eq_false_iff_not]
  norm_num

/-- Instantiation of c3_short_text_kept at a concrete short text and a
concrete compressor length. -/
theorem c3_witness :
    String.utf8ByteSize "hi" < 10 ∧
      (compressionRatio (fun _ => 1) "hi" = 0 ∧
        isHallucination (fun _ => 1) "hi" = false) :=
  ⟨by decide, c3_short_text_kept (fun _ => 1) "hi" (by decide)⟩

/-! ## C8: 16-bit mono decode / re-encode round trip -/

/-- One frame of the round trip: decoding two little-endian bytes to a
signed sample scaled by 1/32768 and re-encoding by multiplying by 32768
reproduces the two bytes. -/
theorem encodeSample16_int16OfBytes (b0 b1 : Nat) (h0 : b0 < 256) (h1 : b1 < 256) :
    encodeSample16 ((int16OfBytes b0 b1 : ℚ) / 32768) = [b0, b1] := by
  have hfloor : (⌊(int16OfBytes b0 b1 : ℚ) / 32768 * 32768⌋ : ℤ) = int16OfBytes b0 b1 := by
    rw [div_mul_cancel₀]
    · exact Int.floor_intCast _
    · norm_num
  have hu : u16le b0 b1 < 65536 := by
    simp only [u16le]; omega
  have hmod : (int16OfBytes b0 b1 % 65536).toNat = u16le b0 b1 := by
    simp only [int16OfBytes, u16le] at *
    split <;> omega
  simp only [encodeSample16, hfloor, hmod, u16le]
  have hb0 : (b0 + 256 * b1) % 256 = b0 := by omega
  have hb1 : (b0 + 256 * b1) / 256 = b1 := by omega
  rw [hb0, hb1]

/-- C8: for every 16-bit mono canonical PCM payload made of whole
2-byte frames, decoding with the loadWav mono branch and re-encoding
each sample at the same 16-bit mono layout reproduces the payload
byte for byte. -/
theorem c8_mono_roundtrip :
    ∀ (payload : List Nat), (∀ b ∈ payload, b < 256) →
      payload.length % 2 = 0 →
      encodeMono16 (decodeMono payload) = payload
  | [], _, _ => rfl
  | [b], _, hlen => by simp at hlen
  | b0 :: b1 :: rest, hb, hlen => by
    have h0 : b0 < 256 := hb b0 (by simp)
    have h1 : b1 < 256 := hb b1 (by simp)
    have hrest : ∀ b ∈ rest, b < 256 := fun b hbm => hb b (by simp [hbm])
    have hlen2 : rest.length % 2 = 0 := by
      simp only [List.length_cons] at hlen
      omega
    have ih := c8_mono_roundtrip rest hrest hlen2
    simp only [decodeMono, encodeMono16, List.map_cons, List.flatten_cons]
    rw [encodeSample16_int16OfBytes b0 b1 h0 h1]
    simpa [encodeMono16] using ih

/-- Instantiation of c8_mono_roundtrip on the concrete payload
[52, 18, 255, 255], the samples 0x1234 and -1. -/
theorem c8_witness :
    (∀ b ∈ [52, 18, 255, 255], b < 256) ∧
      ([52, 18, 255, 255] : List Nat).length % 2 = 0 ∧
      encodeMono16 (decodeMono [52, 18, 255, 255]) = [52, 18, 255, 255] :=
  ⟨by decide, by decide,
    c8_mono_roundtrip [52, 18, 255, 255] (by decide) (by decide)⟩

/-! ## C7: loadWav failure behaviour -/

/-- Counterexample to C7 as stated: wavMono45 is a valid mono 16-bit
header followed by a truncated payload of one byte (not a whole
2-byte frame), yet loadWav succeeds with an empty sample list instead
of failing with MalformedInput: the partial trailing frame is silently
dropped by the `i+1 < len(data)` loop bound. -/
theorem c7_counterexample :
    loadWav wavMono45 = .ok ([], 16000) ∧
      (wavMono45.length - 44) % 2 = 1 := by
  constructor
  · rfl
  · rfl

/-- C7 amended: an input whose 44-byte header cannot be fully read
(fewer than 44 bytes) fails with the MalformedInput header error; but a
truncated payload does not fail: with a 16-bit mono header, loadWav
succeeds for every payload, decoding the whole 2-byte frames and
dropping a trailing partial frame. -/
theorem c7_header_gate :
    (∀ file : List Nat, file.length < 44 →
      loadWav file = .error .malformedHeader) ∧
    (∀ file : List Nat, 44 ≤ file.length →
      u16le (file.getD 34 0) (file.getD 35 0) = 16 →
      u16le (file.getD 22 0) (file.getD 23 0) = 1 →
      loadWav file = .ok (decodeMono (file.drop 44),
        u32le (file.getD 24 0) (file.getD 25 0) (file.getD 26 0) (file.getD 27 0))) := by
  constructor
  · intro file h
    simp [loadWav, if_pos h]
  · intro file hlen h16 h1
    simp only [loadWav, if_neg (Nat.not_lt.mpr hlen)]
    rw [if_pos ⟨h16, h1⟩]

/-- Instantiation of c7_header_gate at the empty file and at
wavMono44. -/
theorem c7_witness :
    loadWav [] = .error .malformedHeader ∧
      loadWav wavMono44 = .ok ([], 16000) := by
  constructor
  · exact c7_header_gate.1 [] (by decide)
  · have h := c7_header_gate.2 wavMono44 (by decide) (by decide) (by decide)
    rw [h]; rfl

/-! ## Pipeline unfolding lemmas -/

/-- When conversion, wav loading, the sample-rate gate, the duration
gate and the language gate all pass, transcribeFile reduces to the
segmentation decision followed by chunk transcription. -/
theorem transcribeFile_gates (env : Env) (req : Request) (bytes : List Nat)
    (samples : List ℚ)
    (hbytes : wavBytes env req = some bytes)
    (hload : loadWav bytes = .ok (samples, 16000))
    (hdur : ¬ env.cfg.maxAudioDurationS < (samples.length : ℚ) / 16000)
    (hru : ¬(req.lang = "ru" ∧ env.ruLoaded = false)) :
    transcribeFile env req =
      if decideVAD env.vadLoaded req.vadOverride ((samples.length : ℚ) / 16000)
          env.cfg.vadMinDurationS then
        (if applyVADChunked env samples = [] then
          ⟨⟨"", 0, ""⟩, 200, ⟨!(req.ext == ".wav"), !(req.ext == ".wav"), true, []⟩⟩
        else
          finishChunks env req (!(req.ext == ".wav")) true (applyVADChunked env samples)
            ((applyVADChunked env samples).foldl (fun a c => a + (c.length : ℚ) / 16) 0))
      else finishChunks env req (!(req.ext == ".wav")) false [samples] 0 := by
  unfold transcribeFile
  rw [hbytes]
  simp only [hload, ne_eq, if_neg hdur, if_neg hru, reduceCtorEq, reduceIte,
    not_true, if_false]

/-- Characterization of the segmentation decision as a proposition. -/
theorem decideVAD_true_iff (l : Bool) (o : Option Bool) (d m : ℚ) :
    decideVAD l o d m = true ↔
      (l = true ∧ (o = some true ∨ (o = none ∧ m ≤ d))) := by
  cases o with
  | none => simp [decideVAD]
  | some b => cases b <;> simp [decideVAD]

/-! ## C2: when segmentation runs -/

/-- C2: for a request that passes conversion, loading, the sample-rate,
duration and language gates, segmentation runs if and only if the VAD
engine is loaded and either the caller forced VAD on, or left the
override unset and the audio duration reaches the configured minimum;
an explicit force-off suppresses segmentation even with the engine
loaded; the configured minimum defaults to 10 seconds. -/
theorem c2_segmentation_decision (env : Env) (req : Request)
    (bytes : List Nat) (samples : List ℚ)
    (hbytes : wavBytes env req = some bytes)
    (hload : loadWav bytes = .ok (samples, 16000))
    (hdur : ¬ env.cfg.maxAudioDurationS < (samples.length : ℚ) / 16000)
    (hru : ¬(req.lang = "ru" ∧ env.ruLoaded = false)) :
    ((transcribeFile env req).trace.ranVAD = true ↔
      (env.vadLoaded = true ∧ (req.vadOverride = some true ∨
        (req.vadOverride = none ∧
          env.cfg.vadMinDurationS ≤ (samples.length : ℚ) / 16000)))) ∧
    (req.vadOverride = some false →
      (transcribeFile env req).trace.ranVAD = false) ∧
    defaultConfig.vadMinDurationS = 10 := by
  have key : (transcribeFile env req).trace.ranVAD =
      decideVAD env.vadLoaded req.vadOverride ((samples.length : ℚ) / 16000)
        env.cfg.vadMinDurationS := by
    rw [transcribeFile_gates env req bytes samples hbytes hload hdur hru]
    cases hd : decideVAD env.vadLoaded req.vadOverride
        ((samples.length : ℚ) / 16000) env.cfg.vadMinDurationS with
    | false => simp [hd, finishChunks]
    | true =>
      by_cases hch : applyVADChunked env samples = [] <;>
        simp [hd, hch, finishChunks]
  refine ⟨?_, ?_, rfl⟩
  · rw [key]
    exact decideVAD_true_iff env.vadLoaded req.vadOverride
      ((samples.length : ℚ) / 16000) env.cfg.vadMinDurationS
  · intro ho
    rw [key, ho]
    simp [decideVAD]

/-- Instantiation of c2_segmentation_decision at a concrete passing
request. -/
theorem c2_witness :
    ((transcribeFile sampleEnv sampleReqAuto).trace.ranVAD = true ↔
      (sampleEnv.vadLoaded = true ∧ (sampleReqAuto.vadOverride = some true ∨
        (sampleReqAuto.vadOverride = none ∧
          sampleEnv.cfg.vadMinDurationS ≤ (([] : List ℚ).length : ℚ) / 16000)))) ∧
    (sampleReqAuto.vadOverride = some false →
      (transcribeFile sampleEnv sampleReqAuto).trace.ranVAD = false) ∧
    defaultConfig.vadMinDurationS = 10 :=
  c2_segmentation_decision sampleEnv sampleReqAuto wavMono44 [] rfl rfl
    (by norm_num [sampleEnv]) (by decide)

/-! ## C6: zero chunks is silence, not an error -/

/-- C6: when the gates pass, segmentation is decided on, and the VAD
yields zero chunks, transcribeFile returns at once with empty text, no
error, speech duration zero (rendered as an absent field), HTTP 200,
and no engine decode call. -/
theorem c6_silence_on_zero_chunks (env : Env) (req : Request)
    (bytes : List Nat) (samples : List ℚ)
    (hbytes : wavBytes env req = some bytes)
    (hload : loadWav bytes = .ok (samples, 16000))
    (hdur : ¬ env.cfg.maxAudioDurationS < (samples.length : ℚ) / 16000)
    (hru : ¬(req.lang = "ru" ∧ env.ruLoaded = false))
    (hvad : decideVAD env.vadLoaded req.vadOverride ((samples.length : ℚ) / 16000)
      env.cfg.vadMinDurationS = true)
    (hchunks : applyVADChunked env samples = []) :
    (transcribeFile env req).resp.text = "" ∧
    (transcribeFile env req).resp.error = "" ∧
    (transcribeFile env req).resp.speechMs = 0 ∧
    (transcribeFile env req).status = 200 ∧
    (transcribeFile env req).trace.decodes = [] := by
  have hres : transcribeFile env req =
      ⟨⟨"", 0, ""⟩, 200, ⟨!(req.ext == ".wav"), !(req.ext == ".wav"), true, []⟩⟩ := by
    rw [transcribeFile_gates env req bytes samples hbytes hload hdur hru,
      if_pos hvad, if_pos hchunks]
  rw [hres]
  exact ⟨rfl, rfl, rfl, rfl, rfl⟩

/-- Instantiation of c6_silence_on_zero_chunks at a concrete request
with VAD forced on and a VAD drain that yields no segment. -/
theorem c6_witness :
    (transcribeFile sampleEnv sampleReqVadOn).resp.text = "" ∧
    (transcribeFile sampleEnv sampleReqVadOn).resp.error = "" ∧
    (transcribeFile sampleEnv sampleReqVadOn).resp.speechMs = 0 ∧
    (transcribeFile sampleEnv sampleReqVadOn).status = 200 ∧
    (transcribeFile sampleEnv sampleReqVadOn).trace.decodes = [] :=
  c6_silence_on_zero_chunks sampleEnv sampleReqVadOn wavMono44 [] rfl rfl
    (by norm_num [sampleEnv]) (by decide) rfl rfl

/-! ## C5: ru requests with no Russian engine -/

/-- C5: a request for language ru when the Russian engine never loaded
performs no engine decode call on any path; and when conversion,
loading, the sample-rate gate and the duration gate pass, it fails with
the EngineUnavailable condition: HTTP 503 and the RU-model error. -/
theorem c5_ru_unavailable (env : Env) (req : Request)
    (hlang : req.lang = "ru") (hru : env.ruLoaded = false) :
    (transcribeFile env req).trace.decodes = [] ∧
    (∀ (bytes : List Nat) (samples : List ℚ),
      wavBytes env req = some bytes →
      loadWav bytes = .ok (samples, 16000) →
      ¬ env.cfg.maxAudioDurationS < (samples.length : ℚ) / 16000 →
      (transcribeFile env req).status = 503 ∧
      (transcribeFile env req).resp.error =
        "RU model not loaded; set ZIPFORMER_RU_DIR") := by
  constructor
  · rcases hwv : wavBytes env req with _ | bytes2
    · unfold transcribeFile
      rw [hwv]
      rfl
    · rcases hlv : loadWav bytes2 with e | ⟨samples2, rate⟩
      · unfold transcribeFile
        rw [hwv]
        simp only [hlv]
        rfl
      · unfold transcribeFile
        rw [hwv]
        simp only [hlv]
        by_cases hr : rate ≠ 16000
        · rw [if_pos hr]
          rfl
        · rw [if_neg hr]
          by_cases hd : env.cfg.maxAudioDurationS < (samples2.length : ℚ) / 16000
          · rw [if_pos hd]
            rfl
          · rw [if_neg hd, if_pos (And.intro hlang hru)]
            rfl
  · intro bytes samples hbytes hload hdur
    have hres : transcribeFile env req =
        errResult "RU model not loaded; set ZIPFORMER_RU_DIR" 503
          ⟨!(req.ext == ".wav"), !(req.ext == ".wav"), false, []⟩ := by
      unfold transcribeFile
      rw [hbytes]
      simp only [hload, ne_eq, not_true, if_false, reduceCtorEq, reduceIte,
        if_neg hdur, if_pos (show req.lang = "ru" ∧ env.ruLoaded = false
          from ⟨hlang, hru⟩)]
    rw [hres]
    exact ⟨rfl, rfl⟩

/-- Instantiation of c5_ru_unavailable at a concrete ru request against
an environment whose Russian engine never loaded. -/
theorem c5_witness :
    (transcribeFile sampleEnvNoRU sampleReqRu).trace.decodes = [] ∧
    ((transcribeFile sampleEnvNoRU sampleReqRu).status = 503 ∧
      (transcribeFile sampleEnvNoRU sampleReqRu).resp.error =
        "RU model not loaded; set ZIPFORMER_RU_DIR") := by
  have h := c5_ru_unavailable sampleEnvNoRU sampleReqRu rfl rfl
  exact ⟨h.1, h.2 wavMono44 [] rfl rfl (by norm_num [sampleEnvNoRU])⟩

/-! ## C4: temporary file cleanup -/

/-- Counterexample to C4 as stated: a request with a non-wav extension
whose conversion subprocess fails.  The subprocess was invoked, but the
function returns on the conversion-failure path without calling
os.Remove, because the deferred removal is only registered after a
successful conversion. -/
theorem c4_counterexample :
    (transcribeFile sampleEnv sampleReqMp3).trace.ffmpegInvoked = true ∧
    (transcribeFile sampleEnv sampleReqMp3).trace.tmpRemoved = false :=
  ⟨rfl, rfl⟩

/-- C4 amended: whenever the conversion subprocess is invoked and
succeeds, the temporary converted file is removed before transcribeFile
returns, on every later exit path, whatever any later stage does. -/
theorem c4_cleanup_after_conversion (env : Env) (req : Request)
    (bytes : List Nat)
    (hext : (req.ext == ".wav") = false)
    (hconv : env.ffmpegOut = some bytes) :
    (transcribeFile env req).trace.ffmpegInvoked = true ∧
    (transcribeFile env req).trace.tmpRemoved = true := by
  have hw : wavBytes env req = some bytes := by
    simp [wavBytes, hext, hconv]
  unfold transcribeFile
  simp only [hw]
  repeat' split
  all_goals simp [errResult, finishChunks, hext]

/-- Instantiation of c4_cleanup_after_conversion at a concrete mp3
request with a successful conversion. -/
theorem c4_witness :
    (transcribeFile sampleEnvConvOk sampleReqMp3).trace.ffmpegInvoked = true ∧
    (transcribeFile sampleEnvConvOk sampleReqMp3).trace.tmpRemoved = true :=
  c4_cleanup_after_conversion sampleEnvConvOk sampleReqMp3 wavMono44 rfl rfl

/-! ## C9: mutual exclusion of same-language decode intervals -/

/-- Changing a mutex owner leaves the thread table unchanged. -/
theorem threads_setMutexOwner (s : SysState) (m : Bool) (v : Option Nat) :
    (setMutexOwner s m v).threads = s.threads := by
  cases m <;> rfl

/-- Owner lookup after an owner update. -/
theorem mutexOwner_setMutexOwner (s : SysState) (m : Bool) (v : Option Nat)
    (m2 : Bool) :
    mutexOwner (setMutexOwner s m v) m2 = if m2 = m then v else mutexOwner s m2 := by
  cases m <;> cases m2 <;> simp [mutexOwner, setMutexOwner]

/-- Changing a thread leaves both mutex owners unchanged. -/
theorem mutexOwner_setThread (s : SysState) (i : Nat) (v : String × PC)
    (m : Bool) : mutexOwner (setThread s i v) m = mutexOwner s m := by
  cases m <;> rfl

/-- One interleaving step preserves the lock-ownership invariant. -/
theorem sysStep_lockInv {s t : SysState} (hst : SysStep s t)
    (hinv : LockInv s) : LockInv t := by
  cases hst with
  | acquire i lang hth hfree =>
    intro j lg hj
    rw [threads_setMutexOwner] at hj
    by_cases hji : j = i
    · subst hji
      have hth2 : (setThread s j (lang, PC.decoding)).threads j =
          some (lang, PC.decoding) := by
        simp [setThread]
      rw [hth2] at hj
      have hlg : lg = lang := by
        have := Option.some.inj hj
        exact (Prod.mk.injEq _ _ _ _ ▸ this).1.symm
      subst hlg
      rw [mutexOwner_setMutexOwner]
      simp
    · have hthj : (setThread s i (lang, PC.decoding)).threads j = s.threads j := by
        simp [setThread, Function.update_noteq hji]
      rw [hthj] at hj
      have ho := hinv j lg hj
      by_cases hm : usesRU lg = usesRU lang
      · rw [hm] at ho
        rw [hfree] at ho
        exact absurd ho (by simp)
      · rw [mutexOwner_setMutexOwner, if_neg hm, mutexOwner_setThread]
        exact ho
  | release i lang hth =>
    intro j lg hj
    rw [threads_setMutexOwner] at hj
    by_cases hji : j = i
    · subst hji
      have hth2 : (setThread s j (lang, PC.done)).threads j =
          some (lang, PC.done) := by
        simp [setThread]
      rw [hth2] at hj
      have := Option.some.inj hj
      exact absurd (Prod.mk.injEq _ _ _ _ ▸ this).2 (by simp)
    · have hthj : (setThread s i (lang, PC.done)).threads j = s.threads j := by
        simp [setThread, Function.update_noteq hji]
      rw [hthj] at hj
      have ho := hinv j lg hj
      have hoi := hinv i lang hth
      by_cases hm : usesRU lg = usesRU lang
      · rw [hm] at ho
        exact absurd (Option.some.inj (ho.symm.trans hoi)) hji
      · rw [mutexOwner_setMutexOwner, if_neg hm, mutexOwner_setThread]
        exact ho

/-- The lock-ownership invariant holds in every reachable state. -/
theorem sysReach_lockInv {s0 s : SysState} (h : SysReach s0 s)
    (hinv : LockInv s0) : LockInv s := by
  induction h with
  | refl => exact hinv
  | tail _ hstep ih => exact sysStep_lockInv hstep ih

/-- The initial state satisfies the lock-ownership invariant: every
thread is idle. -/
theorem initState_lockInv (langs : List String) : LockInv (initState langs) := by
  intro i lang hth
  rcases Option.map_eq_some'.mp hth with ⟨l, _, heq⟩
  exact absurd ((Prod.mk.injEq _ _ _ _ ▸ heq).2) (by simp)

/-- The two-request en/ru overlap state is reachable by two acquire
steps. -/
theorem overlapEnRu_reach : SysReach (initState ["en", "ru"]) overlapEnRu := by
  have step1 : SysStep initEnRu midEnRu :=
    SysStep.acquire initEnRu 0 "en" rfl rfl
  have step2 : SysStep midEnRu overlapEnRu :=
    SysStep.acquire midEnRu 1 "ru" rfl rfl
  exact Relation.ReflTransGen.head step1 (Relation.ReflTransGen.single step2)

/-- C9: in every state reachable from any set of concurrent requests
with free mutexes, two distinct requests with the same language code
are never both inside their decode interval (the per-language mutex
serializes them); and requests with different language codes may
overlap: a state with an English and a Russian decode running at once
is reachable. -/
theorem c9_decode_mutual_exclusion :
    (∀ (langs : List String) (s : SysState) (i j : Nat) (li lj : String),
      SysReach (initState langs) s → i ≠ j →
      ¬(s.threads i = some (li, PC.decoding) ∧
        s.threads j = some (lj, PC.decoding) ∧ li = lj)) ∧
    (∃ s : SysState, SysReach (initState ["en", "ru"]) s ∧
      s.threads 0 = some ("en", PC.decoding) ∧
      s.threads 1 = some ("ru", PC.decoding)) := by
  constructor
  · rintro langs s i j li lj hreach hij ⟨hi, hj, hlij⟩
    have hinv := sysReach_lockInv hreach (initState_lockInv langs)
    have h1 := hinv i li hi
    have h2 := hinv j lj hj
    rw [hlij] at h1
    exact hij (Option.some.inj (h1.symm.trans h2))
  · exact ⟨overlapEnRu, overlapEnRu_reach, rfl, rfl⟩

/-- Instantiation of c9_decode_mutual_exclusion at the concrete
reachable overlap state with threads 0 and 1. -/
theorem c9_witness :
    ¬(overlapEnRu.threads 0 = some ("en", PC.decoding) ∧
      overlapEnRu.threads 1 = some ("ru", PC.decoding) ∧ "en" = "ru") :=
  c9_decode_mutual_exclusion.1 ["en", "ru"] overlapEnRu 0 1 "en" "ru"
    overlapEnRu_reach (by decide)
